import Mathlib

/-!
Shallow embedding of `pyshop.sparkline` (src/pyshop/sparkline.py).

Python floats are modelled as rationals (exact arithmetic), Python strings
as Lean strings, and fallible Python operations (float conversion, `min`/
`max` of an empty sequence, sequence indexing) as `Except String` values
carrying the Python error message.
-/

namespace Pyshop

/-- An element of the input series: either a number (Python int/float,
embedded as a rational) or a string that cannot be converted to a float. -/
inductive Value where
  | num (q : ℚ)
  | str (s : String)
deriving DecidableEq

/-- Python `float(i)`: numbers convert to themselves; a non-numeric string
raises `ValueError: could not convert string to float: ...`, identifying the
offending element. -/
def pyFloat : Value → Except String ℚ
  | Value.num q => Except.ok q
  | Value.str s => Except.error ("could not convert string to float: " ++ s)

/-- The constant `spark_chars = u"▁▂▃▄▅▆▇█"`: eight unicode characters of
(nearly) steadily increasing height. -/
def spark_chars : List Char := ['▁', '▂', '▃', '▄', '▅', '▆', '▇', '█']

/-- Python 3 built-in `round` on an exact value: nearest integer, with ties
(fractional part exactly 1/2) going to the even neighbour. -/
def pyRound (q : ℚ) : ℤ :=
  if q - ⌊q⌋ < 1/2 then ⌊q⌋
  else if 1/2 < q - ⌊q⌋ then ⌊q⌋ + 1
  else if ⌊q⌋ % 2 = 0 then ⌊q⌋ else ⌊q⌋ + 1

/-- Python sequence indexing `l[i]`: a negative index counts from the end;
an index out of range raises `IndexError`. -/
def pyGetItem (l : List Char) (i : ℤ) : Except String Char :=
  if h : 0 ≤ i ∧ i < (l.length : ℤ) then
    Except.ok (l.get ⟨i.toNat, by omega⟩)
  else if h2 : 0 ≤ i + (l.length : ℤ) ∧ i < 0 then
    Except.ok (l.get ⟨(i + (l.length : ℤ)).toNat, by omega⟩)
  else
    Except.error "IndexError: string index out of range"

/-- Python `min(list)`: raises `ValueError` on an empty sequence. -/
def pyMin : List ℚ → Except String ℚ
  | [] => Except.error "min() arg is an empty sequence"
  | x :: xs => Except.ok (xs.foldl min x)

/-- Python `max(list)`: raises `ValueError` on an empty sequence. -/
def pyMax : List ℚ → Except String ℚ
  | [] => Except.error "max() arg is an empty sequence"
  | x :: xs => Except.ok (xs.foldl max x)

/-- The function `sparkify(series, minimum=None, maximum=None)` from
src/pyshop/sparkline.py, line by line:

    series = [ float(i) for i in series ]
    series_min = min(series)
    minimum = min(series_min, float(minimum)) if given else series_min
    series_max = max(series)
    maximum = max(series_max, float(maximum)) if given else series_max
    data_range = maximum - minimum
    if data_range == 0.0: return spark_chars[0] for every sample
    coefficient = (len(spark_chars) - 1.0) / data_range
    return join of spark_chars[int(round((x - minimum) * coefficient))]
-/
def sparkify (series : List Value) (minimum maximum : Option Value) :
    Except String String := do
  let s ← series.mapM pyFloat
  let series_min ← pyMin s
  let minq ←
    match minimum with
    | some m => do
        let mq ← pyFloat m
        pure (min series_min mq)
    | none => pure series_min
  let series_max ← pyMax s
  let maxq ←
    match maximum with
    | some m => do
        let mq ← pyFloat m
        pure (max series_max mq)
    | none => pure series_max
  let data_range := maxq - minq
  if data_range = 0 then
    pure (String.mk (s.map (fun _ => spark_chars.get ⟨0, by decide⟩)))
  else
    let coefficient := ((spark_chars.length : ℚ) - 1) / data_range
    let chars ← s.mapM
      (fun x => pyGetItem spark_chars (pyRound ((x - minq) * coefficient)))
    pure (String.mk chars)

/-! Basic lemmas about the `Except` monad as used by `sparkify`. -/

theorem okBind {α β : Type} (a : α) (f : α → Except String β) :
    (Except.ok a : Except String α) >>= f = f a := rfl

theorem errorBind {α β : Type} (e : String) (f : α → Except String β) :
    (Except.error e : Except String α) >>= f = Except.error e := rfl

theorem pureEqOk {α : Type} (a : α) :
    (pure a : Except String α) = Except.ok a := rfl

/-! Lemmas about `pyRound`. -/

theorem floor_le_pyRound (q : ℚ) : ⌊q⌋ ≤ pyRound q := by
  unfold pyRound
  split_ifs <;> omega

theorem pyRound_le_floor_add_one (q : ℚ) : pyRound q ≤ ⌊q⌋ + 1 := by
  unfold pyRound
  split_ifs <;> omega

theorem pyRound_intCast (k : ℤ) : pyRound (k : ℚ) = k := by
  unfold pyRound
  rw [Int.floor_intCast]
  rw [if_pos (by norm_num)]

theorem pyRound_mono {a b : ℚ} (h : a ≤ b) : pyRound a ≤ pyRound b := by
  rcases lt_or_eq_of_le (Int.floor_mono h) with hlt | heq
  · have h1 := pyRound_le_floor_add_one a
    have h2 := floor_le_pyRound b
    omega
  · have hfr : a - (⌊a⌋ : ℚ) ≤ b - (⌊b⌋ : ℚ) := by
      rw [heq]
      linarith
    unfold pyRound
    rw [heq] at hfr ⊢
    split_ifs <;> first | omega | linarith

theorem pyRound_nonneg {q : ℚ} (h : 0 ≤ q) : 0 ≤ pyRound q := by
  have h0 : pyRound ((0 : ℤ) : ℚ) ≤ pyRound q := pyRound_mono (by exact_mod_cast h)
  rw [pyRound_intCast] at h0
  exact h0

theorem pyRound_le_intCast {q : ℚ} {n : ℤ} (h : q ≤ (n : ℚ)) : pyRound q ≤ n := by
  have h0 := pyRound_mono h
  rw [pyRound_intCast] at h0
  exact h0

theorem pyRound_eq_of_lt_half {k : ℤ} {q : ℚ} (h1 : (k : ℚ) ≤ q)
    (h2 : q < (k : ℚ) + 1/2) : pyRound q = k := by
  have hf : ⌊q⌋ = k := Int.floor_eq_iff.mpr ⟨h1, by linarith⟩
  unfold pyRound
  rw [hf, if_pos (by linarith)]

theorem pyRound_eq_of_half_lt {k : ℤ} {q : ℚ} (h1 : (k : ℚ) + 1/2 < q)
    (h2 : q < (k : ℚ) + 1) : pyRound q = k + 1 := by
  have hf : ⌊q⌋ = k := Int.floor_eq_iff.mpr ⟨by linarith, h2⟩
  unfold pyRound
  rw [hf, if_neg (by linarith), if_pos (by linarith)]

theorem pyRound_tie (k : ℤ) :
    pyRound ((k : ℚ) + 1/2) = if k % 2 = 0 then k else k + 1 := by
  have hf : ⌊(k : ℚ) + 1/2⌋ = k := Int.floor_eq_iff.mpr ⟨by linarith, by linarith⟩
  unfold pyRound
  rw [hf, if_neg (by linarith), if_neg (by linarith)]

example : pyRound (5/2) = 2 := by
  rw [show (5/2 : ℚ) = ((2 : ℤ) : ℚ) + 1/2 by norm_num, pyRound_tie]
  rfl

example : pyRound (7/2) = 4 := by
  rw [show (7/2 : ℚ) = ((3 : ℤ) : ℚ) + 1/2 by norm_num, pyRound_tie]
  rfl

example : pyRound (14/3) = 5 := by
  have := pyRound_eq_of_half_lt (k := 4) (q := 14/3) (by norm_num) (by norm_num)
  simpa using this

/-! Lemmas about `List.foldl min` / `List.foldl max` (Python `min`/`max`). -/

theorem foldl_min_le_init (xs : List ℚ) (a : ℚ) : xs.foldl min a ≤ a := by
  induction xs generalizing a with
  | nil => exact le_refl a
  | cons x t ih => exact le_trans (ih (min a x)) (min_le_left a x)

theorem foldl_min_le_mem {x : ℚ} {xs : List ℚ} (a : ℚ) (h : x ∈ xs) :
    xs.foldl min a ≤ x := by
  induction xs generalizing a with
  | nil => cases h
  | cons y t ih =>
    rcases List.mem_cons.mp h with hy | ht
    · subst hy
      exact le_trans (foldl_min_le_init t (min a x)) (min_le_right a x)
    · exact ih (min a y) ht

theorem le_foldl_min {c a : ℚ} {xs : List ℚ} (h1 : c ≤ a)
    (h2 : ∀ x ∈ xs, c ≤ x) : c ≤ xs.foldl min a := by
  induction xs generalizing a with
  | nil => exact h1
  | cons y t ih =>
    exact ih (le_min h1 (h2 y (List.mem_cons_self y t)))
      (fun x hx => h2 x (List.mem_cons_of_mem y hx))

theorem init_le_foldl_max (xs : List ℚ) (a : ℚ) : a ≤ xs.foldl max a := by
  induction xs generalizing a with
  | nil => exact le_refl a
  | cons x t ih => exact le_trans (le_max_left a x) (ih (max a x))

theorem mem_le_foldl_max {x : ℚ} {xs : List ℚ} (a : ℚ) (h : x ∈ xs) :
    x ≤ xs.foldl max a := by
  induction xs generalizing a with
  | nil => cases h
  | cons y t ih =>
    rcases List.mem_cons.mp h with hy | ht
    · subst hy
      exact le_trans (le_max_right a x) (init_le_foldl_max t (max a x))
    · exact ih (max a y) ht

theorem foldl_max_le {c a : ℚ} {xs : List ℚ} (h1 : a ≤ c)
    (h2 : ∀ x ∈ xs, x ≤ c) : xs.foldl max a ≤ c := by
  induction xs generalizing a with
  | nil => exact h1
  | cons y t ih =>
    exact ih (max_le h1 (h2 y (List.mem_cons_self y t)))
      (fun x hx => h2 x (List.mem_cons_of_mem y hx))

theorem foldl_min_all_eq {v : ℚ} {xs : List ℚ} (h : ∀ x ∈ xs, x = v) :
    xs.foldl min v = v :=
  le_antisymm (foldl_min_le_init xs v)
    (le_foldl_min (le_refl v) (fun x hx => le_of_eq (h x hx).symm))

theorem foldl_max_all_eq {v : ℚ} {xs : List ℚ} (h : ∀ x ∈ xs, x = v) :
    xs.foldl max v = v :=
  le_antisymm (foldl_max_le (le_refl v) (fun x hx => le_of_eq (h x hx)))
    (init_le_foldl_max xs v)

theorem foldl_min_le_foldl_max (xs : List ℚ) (a : ℚ) :
    xs.foldl min a ≤ xs.foldl max a :=
  le_trans (foldl_min_le_init xs a) (init_le_foldl_max xs a)

/-! Lemmas about `List.mapM` over `Except`. -/

theorem mapM_pyFloat_num (qs : List ℚ) :
    (qs.map Value.num).mapM pyFloat = Except.ok qs := by
  induction qs with
  | nil => rfl
  | cons q rest ih =>
    rw [List.map_cons, List.mapM_cons, ih]
    rfl

theorem mapM_pyFloat_bad (qs : List ℚ) (s : String) (post : List Value) :
    (qs.map Value.num ++ Value.str s :: post).mapM pyFloat =
      Except.error ("could not convert string to float: " ++ s) := by
  induction qs with
  | nil => rfl
  | cons q rest ih =>
    rw [List.map_cons, List.cons_append, List.mapM_cons, ih]
    rfl

theorem mapM_eq_ok_map (d : Char) {f : ℚ → Except String Char} {l : List ℚ}
    (h : ∀ x ∈ l, ∃ y, f x = Except.ok y) :
    l.mapM f = Except.ok (l.map fun x => (f x).toOption.getD d) := by
  induction l with
  | nil => rfl
  | cons a t ih =>
    obtain ⟨y, hy⟩ := h a (List.mem_cons_self a t)
    rw [List.mapM_cons, ih (fun x hx => h x (List.mem_cons_of_mem a hx)),
      List.map_cons, hy]
    simp [okBind, pureEqOk, Except.toOption]

/-! Run lemmas: how `sparkify` evaluates on the shapes of input the
specification talks about. -/

theorem sparkify_nil (mb xb : Option Value) :
    sparkify [] mb xb = Except.error "min() arg is an empty sequence" := rfl

theorem sparkify_num_none (q : ℚ) (rest : List ℚ) :
    sparkify ((q :: rest).map Value.num) none none =
      (if rest.foldl max q - rest.foldl min q = 0 then
        Except.ok (String.mk ((q :: rest).map fun _ => '▁'))
      else
        (q :: rest).mapM (fun x => pyGetItem spark_chars
            (pyRound ((x - rest.foldl min q) *
              (((spark_chars.length : ℚ) - 1) /
                (rest.foldl max q - rest.foldl min q)))))
          >>= fun chars => Except.ok (String.mk chars)) := by
  unfold sparkify
  rw [mapM_pyFloat_num, okBind]
  simp only [pyMin, pyMax, okBind, pureEqOk]
  rfl

theorem sparkify_num_min_some (q : ℚ) (rest : List ℚ) (m : ℚ) :
    sparkify ((q :: rest).map Value.num) (some (Value.num m)) none =
      (if rest.foldl max q - min (rest.foldl min q) m = 0 then
        Except.ok (String.mk ((q :: rest).map fun _ => '▁'))
      else
        (q :: rest).mapM (fun x => pyGetItem spark_chars
            (pyRound ((x - min (rest.foldl min q) m) *
              (((spark_chars.length : ℚ) - 1) /
                (rest.foldl max q - min (rest.foldl min q) m)))))
          >>= fun chars => Except.ok (String.mk chars)) := by
  unfold sparkify
  rw [mapM_pyFloat_num, okBind]
  simp only [pyMin, pyMax, pyFloat, okBind, pureEqOk]
  rfl

theorem sparkify_num_max_some (q : ℚ) (rest : List ℚ) (M : ℚ) :
    sparkify ((q :: rest).map Value.num) none (some (Value.num M)) =
      (if max (rest.foldl max q) M - rest.foldl min q = 0 then
        Except.ok (String.mk ((q :: rest).map fun _ => '▁'))
      else
        (q :: rest).mapM (fun x => pyGetItem spark_chars
            (pyRound ((x - rest.foldl min q) *
              (((spark_chars.length : ℚ) - 1) /
                (max (rest.foldl max q) M - rest.foldl min q)))))
          >>= fun chars => Except.ok (String.mk chars)) := by
  unfold sparkify
  rw [mapM_pyFloat_num, okBind]
  simp only [pyMin, pyMax, pyFloat, okBind, pureEqOk]
  rfl

theorem sparkify_const (v : ℚ) (n : ℕ) (mb xb : Option Value)
    (hmb : mb = none ∨ mb = some (Value.num v))
    (hxb : xb = none ∨ xb = some (Value.num v)) :
    sparkify (List.replicate (n+1) (Value.num v)) mb xb =
      Except.ok (String.mk (List.replicate (n+1) '▁')) := by
  have hrep : List.replicate (n+1) (Value.num v) =
      (List.replicate (n+1) v).map Value.num := (List.map_replicate).symm
  have hmin : (List.replicate n v).foldl min v = v :=
    foldl_min_all_eq (fun x hx => List.eq_of_mem_replicate hx)
  have hmax : (List.replicate n v).foldl max v = v :=
    foldl_max_all_eq (fun x hx => List.eq_of_mem_replicate hx)
  rw [hrep]
  unfold sparkify
  rw [mapM_pyFloat_num, okBind]
  rw [List.replicate_succ]
  simp only [pyMin, pyMax, okBind, pureEqOk, hmin, hmax]
  rcases hmb with rfl | rfl <;> rcases hxb with rfl | rfl <;>
    · simp only [pyFloat, okBind, pureEqOk, min_self, max_self, sub_self,
        if_pos rfl, ← List.replicate_succ, List.map_replicate]
      rfl

/-! Helper lemmas used by several claims. -/

theorem mem_bounds {x q : ℚ} {rest : List ℚ} (hx : x ∈ q :: rest) :
    rest.foldl min q ≤ x ∧ x ≤ rest.foldl max q := by
  rcases List.mem_cons.mp hx with rfl | hmem
  · exact ⟨foldl_min_le_init rest x, init_le_foldl_max rest x⟩
  · exact ⟨foldl_min_le_mem q hmem, mem_le_foldl_max q hmem⟩

theorem range_lt {q : ℚ} {rest : List ℚ}
    (h0 : ¬ rest.foldl max q - rest.foldl min q = 0) :
    rest.foldl min q < rest.foldl max q :=
  lt_of_le_of_ne (foldl_min_le_foldl_max rest q)
    (fun heq => h0 (by rw [heq, sub_self]))

theorem glyph_index_bounds {mn mx x : ℚ} (hr : mn < mx) (h1 : mn ≤ x)
    (h2 : x ≤ mx) :
    0 ≤ pyRound ((x - mn) * (((spark_chars.length : ℚ) - 1) / (mx - mn))) ∧
    pyRound ((x - mn) * (((spark_chars.length : ℚ) - 1) / (mx - mn))) <
      (spark_chars.length : ℤ) := by
  have hlen : ((spark_chars.length : ℚ) - 1) = 7 := by norm_num [spark_chars]
  have hlen2 : (spark_chars.length : ℤ) = 8 := by norm_num [spark_chars]
  rw [hlen, hlen2]
  have hpos : (0 : ℚ) < mx - mn := by linarith
  have hy0 : 0 ≤ (x - mn) * (7 / (mx - mn)) :=
    mul_nonneg (by linarith) (le_of_lt (div_pos (by norm_num) hpos))
  have hy7 : (x - mn) * (7 / (mx - mn)) ≤ 7 := by
    rw [mul_div_assoc', div_le_iff₀ hpos]
    nlinarith
  refine ⟨pyRound_nonneg hy0, ?_⟩
  have h7 : pyRound ((x - mn) * (7 / (mx - mn))) ≤ (7 : ℤ) :=
    pyRound_le_intCast (by push_cast; linarith)
  omega

theorem pyGetItem_spark_ok {i : ℤ} (h0 : 0 ≤ i)
    (h8 : i < (spark_chars.length : ℤ)) :
    ∃ c, pyGetItem spark_chars i = Except.ok c := by
  unfold pyGetItem
  rw [dif_pos ⟨h0, h8⟩]
  exact ⟨_, rfl⟩

theorem sparkify_num_none_ok (q : ℚ) (rest : List ℚ) :
    ∃ f : ℚ → Char, sparkify ((q :: rest).map Value.num) none none =
      Except.ok (String.mk ((q :: rest).map f)) := by
  rw [sparkify_num_none]
  by_cases h0 : rest.foldl max q - rest.foldl min q = 0
  · rw [if_pos h0]
    exact ⟨fun _ => '▁', rfl⟩
  · rw [if_neg h0]
    have hlt := range_lt h0
    have hok : ∀ x ∈ q :: rest, ∃ y,
        pyGetItem spark_chars (pyRound ((x - rest.foldl min q) *
          (((spark_chars.length : ℚ) - 1) /
            (rest.foldl max q - rest.foldl min q)))) = Except.ok y := by
      intro x hx
      obtain ⟨hmn, hmx⟩ := mem_bounds hx
      obtain ⟨b1, b2⟩ := glyph_index_bounds hlt hmn hmx
      exact pyGetItem_spark_ok b1 b2
    rw [mapM_eq_ok_map '▁' hok, okBind]
    exact ⟨_, rfl⟩

/-! The claims. -/

/-- C1, counterexample: `render([])` does not return the empty string; the
code takes `min` of the converted (empty) list, which fails. -/
theorem claim1_empty_counterexample : sparkify [] none none ≠ Except.ok "" := by
  rw [sparkify_nil]
  intro h
  exact Except.noConfusion h

/-- C1, amended: for the empty input sequence, render fails with the
`ValueError` raised by `min()` on an empty sequence; the empty sequence is a
failure, not a permitted input with empty output. -/
theorem claim1_empty_amended :
    sparkify [] none none = Except.error "min() arg is an empty sequence" :=
  sparkify_nil none none

/-- C2: for every non-empty sequence in which all samples equal the same
value `v` (and any explicit minimum/maximum bound, if given, also equals
`v`), render returns the index-0 (shortest) glyph repeated `len(samples)`
times, for every choice of `v`. -/
theorem claim2_constant_series (v : ℚ) (series : List Value)
    (mb xb : Option Value) (hne : series ≠ [])
    (hall : ∀ w ∈ series, w = Value.num v)
    (hmb : mb = none ∨ mb = some (Value.num v))
    (hxb : xb = none ∨ xb = some (Value.num v)) :
    sparkify series mb xb =
      Except.ok (String.mk (List.replicate series.length
        (spark_chars.get ⟨0, by decide⟩))) := by
  have hrep : series = List.replicate series.length (Value.num v) :=
    List.eq_replicate_of_mem hall
  obtain ⟨n, hn⟩ : ∃ n, series.length = n + 1 := by
    cases series with
    | nil => exact absurd rfl hne
    | cons a t => exact ⟨t.length, rfl⟩
  rw [hn] at hrep ⊢
  rw [hrep, sparkify_const v n mb xb hmb hxb]
  rfl

/-- C2 witness: `render([5, 5, 5])` is three copies of the shortest glyph. -/
theorem claim2_witness :
    sparkify [Value.num 5, Value.num 5, Value.num 5] none none =
      Except.ok (String.mk (List.replicate 3 (spark_chars.get ⟨0, by decide⟩))) :=
  claim2_constant_series 5 [Value.num 5, Value.num 5, Value.num 5] none none
    (by simp) (by simp) (Or.inl rfl) (Or.inl rfl)

/-- C3: explicit bounds only ever widen the effective range. For a non-empty
numeric series, an explicit minimum strictly above the data minimum leaves
the output unchanged, and an explicit maximum strictly below the data
maximum leaves the output unchanged. -/
theorem claim3_bounds_only_widen (q : ℚ) (rest : List ℚ) (m M : ℚ) :
    (rest.foldl min q < m →
      sparkify ((q :: rest).map Value.num) (some (Value.num m)) none =
        sparkify ((q :: rest).map Value.num) none none) ∧
    (M < rest.foldl max q →
      sparkify ((q :: rest).map Value.num) none (some (Value.num M)) =
        sparkify ((q :: rest).map Value.num) none none) := by
  constructor
  · intro hm
    rw [sparkify_num_min_some, sparkify_num_none, min_eq_left (le_of_lt hm)]
  · intro hM
    rw [sparkify_num_max_some, sparkify_num_none, max_eq_left (le_of_lt hM)]

/-- C3 witness: on `[1, 3]`, an explicit minimum of 2 (above the data
minimum 1) and an explicit maximum of 2 (below the data maximum 3) each
leave the output unchanged. -/
theorem claim3_witness :
    sparkify [Value.num 1, Value.num 3] (some (Value.num 2)) none =
        sparkify [Value.num 1, Value.num 3] none none ∧
      sparkify [Value.num 1, Value.num 3] none (some (Value.num 2)) =
        sparkify [Value.num 1, Value.num 3] none none := by
  have h := claim3_bounds_only_widen 1 [3] 2 2
  have hm : (([3] : List ℚ).foldl min 1) < 2 := by
    simp only [List.foldl]
    norm_num [min_def]
  have hM : (2 : ℚ) < ([3] : List ℚ).foldl max 1 := by
    simp only [List.foldl]
    norm_num [max_def]
  exact ⟨h.1 hm, h.2 hM⟩

/-- C4: for a nonzero effective range, the computed glyph index
`round((x - effective_min) * scale)` lies in `[0, alphabet_length - 1]` for
every sample `x` within the effective bounds, so indexing into the 8-glyph
alphabet never goes out of bounds, and render never fails on a non-empty
all-numeric input. -/
theorem claim4_index_in_range :
    (∀ mn mx x : ℚ, mn < mx → mn ≤ x → x ≤ mx →
      0 ≤ pyRound ((x - mn) * (((spark_chars.length : ℚ) - 1) / (mx - mn))) ∧
      pyRound ((x - mn) * (((spark_chars.length : ℚ) - 1) / (mx - mn))) <
        (spark_chars.length : ℤ)) ∧
    (∀ (q : ℚ) (rest : List ℚ), ∃ out,
      sparkify ((q :: rest).map Value.num) none none = Except.ok out) := by
  constructor
  · intro mn mx x hr h1 h2
    exact glyph_index_bounds hr h1 h2
  · intro q rest
    obtain ⟨f, hf⟩ := sparkify_num_none_ok q rest
    exact ⟨_, hf⟩

/-- C4 witness: concrete instances of both parts. -/
theorem claim4_witness :
    (0 ≤ pyRound (((3 : ℚ) - 1) * (((spark_chars.length : ℚ) - 1) / (5 - 1))) ∧
      pyRound (((3 : ℚ) - 1) * (((spark_chars.length : ℚ) - 1) / (5 - 1))) <
        (spark_chars.length : ℤ)) ∧
    (∃ out, sparkify (((2 : ℚ) :: [4]).map Value.num) none none =
      Except.ok out) :=
  ⟨claim4_index_in_range.1 1 5 3 (by norm_num) (by norm_num) (by norm_num),
    claim4_index_in_range.2 2 [4]⟩

/-- C5: for every non-empty numeric sequence, the output has exactly one
glyph per input sample, in the same order: the output is the input list
mapped elementwise through a single glyph function, and its length equals
the input length. -/
theorem claim5_length_and_order (q : ℚ) (rest : List ℚ) :
    ∃ (out : String) (f : ℚ → Char),
      sparkify ((q :: rest).map Value.num) none none = Except.ok out ∧
      out = String.mk ((q :: rest).map f) ∧
      out.length = (q :: rest).length := by
  obtain ⟨f, hf⟩ := sparkify_num_none_ok q rest
  refine ⟨_, f, hf, rfl, ?_⟩
  show ((q :: rest).map f).length = (q :: rest).length
  exact List.length_map _ _

/-- C5 witness: a concrete instance. -/
theorem claim5_witness :
    ∃ (out : String) (f : ℚ → Char),
      sparkify (((1 : ℚ) :: [2]).map Value.num) none none = Except.ok out ∧
      out = String.mk (((1 : ℚ) :: [2]).map f) ∧
      out.length = ((1 : ℚ) :: [2] : List ℚ).length :=
  claim5_length_and_order 1 [2]

/-- C6: if an element of the series is not convertible to float, render
fails with the conversion error identifying the offending element, aborting
the whole call with no output, whatever the explicit bounds are. -/
theorem claim6_invalid_element (pre : List ℚ) (s : String) (post : List Value)
    (mb xb : Option Value) :
    sparkify (pre.map Value.num ++ Value.str s :: post) mb xb =
      Except.error ("could not convert string to float: " ++ s) := by
  unfold sparkify
  rw [mapM_pyFloat_bad, errorBind]

/-- C6 witness: `render([1, "x", 3])` fails identifying `"x"`. -/
theorem claim6_witness :
    sparkify [Value.num 1, Value.str "x", Value.num 3] none none =
      Except.error ("could not convert string to float: " ++ "x") :=
  claim6_invalid_element [1] "x" [Value.num 3] none none

/-- C7: for fixed effective bounds with nonzero range, the glyph index is
monotone in the sample value. -/
theorem claim7_index_monotone (mn mx a b : ℚ) (hr : mn < mx) (hab : a ≤ b) :
    pyRound ((a - mn) * (((spark_chars.length : ℚ) - 1) / (mx - mn))) ≤
      pyRound ((b - mn) * (((spark_chars.length : ℚ) - 1) / (mx - mn))) := by
  apply pyRound_mono
  apply mul_le_mul_of_nonneg_right (by linarith)
  have hnum : (0 : ℚ) ≤ (spark_chars.length : ℚ) - 1 := by
    norm_num [spark_chars]
  exact div_nonneg hnum (by linarith)

/-- C7 witness: a concrete instance with bounds 0 and 2. -/
theorem claim7_witness :
    pyRound (((1 : ℚ) - 0) * (((spark_chars.length : ℚ) - 1) / (2 - 0))) ≤
      pyRound (((2 : ℚ) - 0) * (((spark_chars.length : ℚ) - 1) / (2 - 0))) :=
  claim7_index_monotone 0 2 1 2 (by norm_num) (by norm_num)

/-- C8: `render([1, 1, -2, 3, -5, 8, -13])` returns the docstring's 7-glyph
string `▆▆▅▆▄█▁`; it spans the full alphabet range: the sample -13 (last
position) maps to the index-0 glyph, the sample 8 (position 5) maps to the
index-7 glyph, and the two samples equal to 1 (positions 0 and 1) produce
identical glyphs. -/
theorem claim8_docstring_example :
    sparkify [Value.num 1, Value.num 1, Value.num (-2), Value.num 3,
        Value.num (-5), Value.num 8, Value.num (-13)] none none =
      Except.ok "▆▆▅▆▄█▁" ∧
    ("▆▆▅▆▄█▁" : String).length = 7 ∧
    "▆▆▅▆▄█▁".data.getLast? = some (spark_chars.get ⟨0, by decide⟩) ∧
    "▆▆▅▆▄█▁".data.getD 5 ' ' = spark_chars.get ⟨7, by decide⟩ ∧
    "▆▆▅▆▄█▁".data.getD 0 ' ' = "▆▆▅▆▄█▁".data.getD 1 ' ' := by
  refine ⟨?_, by decide, by decide, by decide, by decide⟩
  show sparkify (((1 : ℚ) :: [1, -2, 3, -5, 8, -13]).map Value.num) none none =
    Except.ok "▆▆▅▆▄█▁"
  have hmin : ([1, -2, 3, -5, 8, -13] : List ℚ).foldl min 1 = -13 := by
    norm_num [List.foldl, min_def]
  have hmax : ([1, -2, 3, -5, 8, -13] : List ℚ).foldl max 1 = 8 := by
    norm_num [List.foldl, max_def]
  rw [sparkify_num_none, hmin, hmax, if_neg (by norm_num)]
  have c1 : pyRound (((1 : ℚ) - -13) *
      (((spark_chars.length : ℚ) - 1) / ((8 : ℚ) - -13))) = 5 := by
    rw [show ((1 : ℚ) - -13) * (((spark_chars.length : ℚ) - 1) /
        ((8 : ℚ) - -13)) = 14/3 by norm_num [spark_chars]]
    have h := pyRound_eq_of_half_lt (k := 4) (q := (14/3 : ℚ))
      (by norm_num) (by norm_num)
    omega
  have c2 : pyRound (((-2 : ℚ) - -13) *
      (((spark_chars.length : ℚ) - 1) / ((8 : ℚ) - -13))) = 4 := by
    rw [show ((-2 : ℚ) - -13) * (((spark_chars.length : ℚ) - 1) /
        ((8 : ℚ) - -13)) = 11/3 by norm_num [spark_chars]]
    have h := pyRound_eq_of_half_lt (k := 3) (q := (11/3 : ℚ))
      (by norm_num) (by norm_num)
    omega
  have c3 : pyRound (((3 : ℚ) - -13) *
      (((spark_chars.length : ℚ) - 1) / ((8 : ℚ) - -13))) = 5 := by
    rw [show ((3 : ℚ) - -13) * (((spark_chars.length : ℚ) - 1) /
        ((8 : ℚ) - -13)) = 16/3 by norm_num [spark_chars]]
    exact pyRound_eq_of_lt_half (k := 5) (by norm_num) (by norm_num)
  have c4 : pyRound (((-5 : ℚ) - -13) *
      (((spark_chars.length : ℚ) - 1) / ((8 : ℚ) - -13))) = 3 := by
    rw [show ((-5 : ℚ) - -13) * (((spark_chars.length : ℚ) - 1) /
        ((8 : ℚ) - -13)) = 8/3 by norm_num [spark_chars]]
    have h := pyRound_eq_of_half_lt (k := 2) (q := (8/3 : ℚ))
      (by norm_num) (by norm_num)
    omega
  have c5 : pyRound (((8 : ℚ) - -13) *
      (((spark_chars.length : ℚ) - 1) / ((8 : ℚ) - -13))) = 7 := by
    rw [show ((8 : ℚ) - -13) * (((spark_chars.length : ℚ) - 1) /
        ((8 : ℚ) - -13)) = ((7 : ℤ) : ℚ) by push_cast; norm_num [spark_chars]]
    exact pyRound_intCast 7
  have c6 : pyRound (((-13 : ℚ) - -13) *
      (((spark_chars.length : ℚ) - 1) / ((8 : ℚ) - -13))) = 0 := by
    rw [show ((-13 : ℚ) - -13) * (((spark_chars.length : ℚ) - 1) /
        ((8 : ℚ) - -13)) = ((0 : ℤ) : ℚ) by push_cast; norm_num [spark_chars]]
    exact pyRound_intCast 0
  simp only [List.mapM_cons, List.mapM_nil, c1, c2, c3, c4, c5, c6]
  rfl

/-- C9: the rounding used for glyph indices is round-half-to-even: at an
exact tie `k + 1/2` the result is one of the two neighbouring integers, and
it is the even one. -/
theorem claim9_round_half_to_even (k : ℤ) :
    (pyRound ((k : ℚ) + 1/2) = k ∨ pyRound ((k : ℚ) + 1/2) = k + 1) ∧
    pyRound ((k : ℚ) + 1/2) % 2 = 0 := by
  rw [pyRound_tie]
  rcases Int.emod_two_eq_zero_or_one k with h | h
  · rw [if_pos h]
    exact ⟨Or.inl rfl, h⟩
  · rw [if_neg (by omega)]
    exact ⟨Or.inr rfl, by omega⟩

/-- C9 witness: the tie at 3 + 1/2 rounds to the even neighbour 4. -/
theorem claim9_witness :
    (pyRound (((3 : ℤ) : ℚ) + 1/2) = 3 ∨
      pyRound (((3 : ℤ) : ℚ) + 1/2) = 3 + 1) ∧
    pyRound (((3 : ℤ) : ℚ) + 1/2) % 2 = 0 :=
  claim9_round_half_to_even 3

/-- C10: a singleton numeric input always renders as exactly one glyph, the
index-0 (shortest) glyph, regardless of the value, provided any explicit
bound equals that value or is absent. -/
theorem claim10_singleton (x : ℚ) (mb xb : Option Value)
    (hmb : mb = none ∨ mb = some (Value.num x))
    (hxb : xb = none ∨ xb = some (Value.num x)) :
    sparkify [Value.num x] mb xb =
      Except.ok (String.mk [spark_chars.get ⟨0, by decide⟩]) :=
  sparkify_const x 0 mb xb hmb hxb

/-- C10 witness: `render([42])` is the single shortest glyph. -/
theorem claim10_witness :
    sparkify [Value.num 42] none none =
      Except.ok (String.mk [spark_chars.get ⟨0, by decide⟩]) :=
  claim10_singleton 42 none none (Or.inl rfl) (Or.inl rfl)

end Pyshop
